import Mathlib

/-!
Verification of the caddy-ai-router core against its specification.

The development shallowly embeds the request-routing and protocol-translation
engine of the repository: the model resolver, the chat-completion handler's
credential and live-catalog fuzzy-search flow, the Anthropic and Google
request/response translations, the SSE chunk hook, the provision/validate
lifecycle and the catalog aggregation merge.  Go strings are Lean `String`s,
Go slices are `List`s, Go maps with unique keys are association lists,
fallible Go calls return `Except`, and a Go runtime panic is `Option.none`
or a distinguished outcome constructor.  External collaborators (the HTTP
client, the credential service, the edit-distance library) enter as function
parameters, so every theorem quantifies over their behaviour.
-/

namespace AIRouter

/-! ## Go string primitives used by the code -/

/-- Occurrence of `sub` as a contiguous run inside `l`, as a boolean. -/
def infixCheck (sub : List Char) : List Char → Bool
  | [] => sub.isEmpty
  | x :: t => sub.isPrefixOf (x :: t) || infixCheck sub t

/-- Model of Go `strings.Contains(s, sub)`: `sub` occurs as a contiguous
substring of `s`. -/
def goContains (s sub : String) : Bool :=
  infixCheck sub.data s.data

/-- Characters trimmed by Go `strings.TrimSpace` (the ASCII/Latin-1 white
space; general Unicode space classes do not occur in the payloads modelled
here). -/
def isGoSpace (c : Char) : Bool :=
  c = ' ' || c = '\t' || c = '\n' || c = (Char.ofNat 11) || c = (Char.ofNat 12) ||
  c = '\r' || c = (Char.ofNat 133) || c = (Char.ofNat 160)

/-- Model of Go `strings.TrimSpace`. -/
def goTrimSpace (s : String) : String :=
  String.mk (((s.data.dropWhile isGoSpace).reverse.dropWhile isGoSpace).reverse)

/-- Model of Go `strings.ToLower` (character-wise lowercasing). -/
def goToLower (s : String) : String :=
  String.mk (s.data.map Char.toLower)

/-- Split a character list at the first slash, if any: the model of
Go `strings.SplitN(s, "/", 2)` producing two pieces. -/
def splitAtFirstSlash : List Char → Option (List Char × List Char)
  | [] => none
  | c :: cs =>
    if c = '/' then some ([], cs)
    else
      match splitAtFirstSlash cs with
      | some (a, b) => some (c :: a, b)
      | none => none

/-- Model of Go `strings.SplitN(s, "/", 2)`: two parts when `s` contains a
slash, one part otherwise. -/
def splitN2Slash (s : String) : List String :=
  match splitAtFirstSlash s.data with
  | some (a, b) => [String.mk a, String.mk b]
  | none => [s]

/-! ## SSE chunk hook (src/pkg/common/hooks.go, HookHttpResponseJsonChunks) -/

/-- Chunks kept by the SSE branch of the hook: blanks and the `[DONE]`
sentinel are dropped (after Go `strings.TrimSpace`). -/
def sseKeep (c : String) : Bool :=
  !(c = "" || c = "[DONE]")

/-- Loop body of the SSE branch of `HookHttpResponseJsonChunks`: trim each
piece of the `data: ` split, skip blanks and `[DONE]`, transform the rest,
stop at the first transform error, and re-prefix `data: `. -/
def hookSseChunks (transform : String → Except String String) :
    List String → Except String (List String)
  | [] => .ok []
  | c :: cs =>
    let t := goTrimSpace c
    if sseKeep t then
      match transform t with
      | .error e => .error e
      | .ok o =>
        match hookSseChunks transform cs with
        | .error e => .error e
        | .ok os => .ok (("data: " ++ o) :: os)
    else hookSseChunks transform cs

/-- Model of `HookHttpResponseJsonChunks` applied to a buffered body:
JSON bodies are transformed once, `text/event-stream` bodies are split on
`data: `, per-chunk transformed and rejoined with blank lines, and any other
content type passes through. -/
def hookHttpResponseJsonChunks (transform : String → Except String String)
    (contentType body : String) : Except String String :=
  if contentType = "application/json" then transform body
  else if contentType = "text/event-stream" then
    match hookSseChunks transform (body.splitOn "data: ") with
    | .error e => .error e
    | .ok ts => .ok (String.intercalate "\n\n" ts)
  else .ok body

/-- Chunks of an SSE body that survive the hook's filter, in input order:
the pieces of the `data: ` split, trimmed, minus blanks and `[DONE]`. -/
def sseKeptChunks (body : String) : List String :=
  ((body.splitOn "data: ").map goTrimSpace).filter sseKeep

theorem hookSseChunks_ok (t : String → String) (l : List String) :
    hookSseChunks (fun c => .ok (t c)) l =
      .ok (((l.map goTrimSpace).filter sseKeep).map (fun c => "data: " ++ t c)) := by
  induction l with
  | nil => rfl
  | cons c cs ih =>
    by_cases h : sseKeep (goTrimSpace c)
    · simp [hookSseChunks, h, ih, List.filter]
    · simp [hookSseChunks, h, ih, List.filter]

/-- Claim C7: the SSE branch of the chunk hook outputs exactly the
non-sentinel, non-blank `data: ` chunks of the input, each transformed
independently and re-prefixed, rejoined by blank lines — so the chunk count
and order are preserved. -/
theorem claim7_sse_chunkwise_transform (t : String → String) (body : String) :
    hookHttpResponseJsonChunks (fun c => .ok (t c)) "text/event-stream" body =
      .ok (String.intercalate "\n\n"
        ((sseKeptChunks body).map (fun c => "data: " ++ t c))) ∧
    ((sseKeptChunks body).map (fun c => "data: " ++ t c)).length =
      (sseKeptChunks body).length := by
  constructor
  · simp [hookHttpResponseJsonChunks, hookSseChunks_ok, sseKeptChunks]
  · simp

/-! ## Unified data model (src/pkg/transforms/openai.go unified structures) -/

/-- Message of the unified (OpenAI-like) chat shape. -/
structure UnifiedChatMessage where
  role : String
  content : String
deriving DecidableEq, Repr

/-- Unified chat-completion request.  `maxTokens` is a pointer in the source
(`*int`), so absent is distinct from zero. -/
structure UnifiedChatRequest where
  model : String
  messages : List UnifiedChatMessage
  stream : Bool
  maxTokens : Option Int
  temperature : Option Float
deriving Repr

/-- Choice of the unified chat-completion response. -/
structure UnifiedChoice where
  index : Int
  message : UnifiedChatMessage
  finishReason : String
deriving DecidableEq, Repr

/-- Token usage block of the unified response. -/
structure UnifiedUsage where
  promptTokens : Int
  completionTokens : Int
  totalTokens : Int
deriving DecidableEq, Repr

/-- Unified chat-completion response. -/
structure UnifiedChatResponse where
  id : String
  object : String
  created : Int
  model : String
  choices : List UnifiedChoice
  usage : Option UnifiedUsage
deriving DecidableEq, Repr

/-! ## Anthropic request translation (src/pkg/transforms/anthropic.go) -/

/-- Message of Anthropic's Messages API. -/
structure AnthropicMessage where
  role : String
  content : String
deriving DecidableEq, Repr

/-- Request body of Anthropic's Messages API as assembled by the transform. -/
structure AnthropicMessagesRequest where
  model : String
  messages : List AnthropicMessage
  system : String
  maxTokens : Int
  stream : Bool
  temperature : Option Float
deriving Repr

/-- System-field update of `TransformRequestToAnthropic`: append with a
newline separator unless the accumulated system string is still empty. -/
def anthropicSystemAppend (sys c : String) : String :=
  if sys ≠ "" then sys ++ "\n" ++ c else c

/-- Message loop of `TransformRequestToAnthropic`: system messages accumulate
into the system string and are dropped from the message list; the assistant
role is kept and every other role is coerced to `user`. -/
def anthropicLoop (sys : String) (acc : List AnthropicMessage) :
    List UnifiedChatMessage → String × List AnthropicMessage
  | [] => (sys, acc)
  | m :: ms =>
    if m.role = "system" then
      anthropicLoop (anthropicSystemAppend sys m.content) acc ms
    else
      anthropicLoop sys
        (acc ++ [{ role := if m.role = "assistant" then "assistant" else "user",
                   content := m.content }]) ms

/-- Model of `TransformRequestToAnthropic` on an already-parsed unified
request: re-assembles the body with the resolved model name, the folded
system string, a `max_tokens` defaulting to 1024 when absent, and the
stream/temperature pass-through. -/
def transformRequestToAnthropic (modelName : String) (req : UnifiedChatRequest) :
    AnthropicMessagesRequest :=
  let folded := anthropicLoop "" [] req.messages
  { model := modelName
    messages := folded.2
    system := folded.1
    maxTokens := match req.maxTokens with | some v => v | none => 1024
    stream := req.stream
    temperature := req.temperature }

/-- Contents of the system-role messages of a unified message list, in order. -/
def systemContents (msgs : List UnifiedChatMessage) : List String :=
  (msgs.filter (fun m => m.role = "system")).map (fun m => m.content)

/-- Join by a newline separator, following the specification's words for the
assembled `system` field. -/
def joinNL : List String → String
  | [] => ""
  | [c] => c
  | c :: cs => c ++ "\n" ++ joinNL cs

/-! ## Google response translation (src/pkg/transforms/cloudflare.go,
`TransformResponseFromGoogleAI`) -/

/-- Part of a Google AI content block. -/
structure GoogleAIPart where
  text : String
deriving DecidableEq, Repr

/-- Content block of a Google AI candidate. -/
structure GoogleAIContent where
  role : String
  parts : List GoogleAIPart
deriving DecidableEq, Repr

/-- Candidate of a Google generateContent response. -/
structure GoogleAICandidate where
  content : GoogleAIContent
  finishReason : String
  index : Int
deriving DecidableEq, Repr

/-- Google generateContent response body. -/
structure GoogleAIGenerateContentResponse where
  candidates : List GoogleAICandidate
deriving DecidableEq, Repr

/-- Model of `TransformResponseFromGoogleAI` on an already-parsed response.
The clock is a parameter (`now`).  When the first candidate is present the
source indexes `candidate.Content.Parts[0]` without a guard, which panics in
Go when the parts list is empty: that run is `none` here. -/
def transformResponseFromGoogleAI (now : Int) (resp : GoogleAIGenerateContentResponse) :
    Option UnifiedChatResponse :=
  let base : UnifiedChatResponse :=
    { id := "gen-" ++ toString now
      object := "chat.completion"
      created := now
      model := ""
      choices := []
      usage := none }
  match resp.candidates with
  | [] => some base
  | candidate :: _ =>
    match candidate.content.parts with
    | [] => none
    | part :: _ =>
      some { base with
              model := candidate.content.role
              choices := [{ index := 0
                            message := { role := "assistant", content := part.text }
                            finishReason := candidate.finishReason }] }

/-! ## Anthropic header shaping (src/pkg/providers/anthropic.go and the chat
handler's outbound credential header, src/inference_handler.go) -/

/-- Headers whose fate the Anthropic adapter decides.  `none` models an
absent header; Go `Header.Get` on an absent header returns the empty
string. -/
structure RequestHeaders where
  authorization : Option String
  xApiKey : Option String
  contentType : Option String
deriving DecidableEq, Repr

/-- Model of Go `Header.Get`: the value, or the empty string when absent. -/
def headerGetD (v : Option String) : String :=
  v.getD ""

/-- Header rewrite of `AnthropicProvider.ModifyCompletionRequest`: set the
content type, copy the current `Authorization` value verbatim into
`x-api-key`, then delete `Authorization`. -/
def anthropicModifyHeaders (h : RequestHeaders) : RequestHeaders :=
  { authorization := none
    xApiKey := some (headerGetD h.authorization)
    contentType := some "application/json" }

/-- Credential header installed by the chat handler before hand-off to the
provider proxy: `Authorization: Bearer <key>`. -/
def setOutgoingAuth (key : String) (h : RequestHeaders) : RequestHeaders :=
  { h with authorization := some ("Bearer " ++ key) }

/-! ## Router state and model resolution (src/router.go, src/inference_handler.go,
src/unnamed/part_008) -/

/-- Configuration of one provider entry (src/router.go `ProviderConfig`);
the registry key doubles as the provider name, as `Provision` copies the key
into `Name`. -/
structure ProviderCfg where
  apiBaseURL : String
  style : String
deriving DecidableEq, Repr

/-- Core router aggregate (src/router.go `AICoreRouter`): the provider
registry, the list-valued per-model defaults and the fall-through provider
order.  Go maps with unique keys are association lists. -/
structure RouterState where
  providers : List (String × ProviderCfg)
  defaultProviderForModel : List (String × List String)
  providerOrder : List String
deriving Repr

/-- Registry lookup by provider name. -/
def lookupProvider (st : RouterState) (name : String) : Option ProviderCfg :=
  st.providers.lookup name

/-- Per-model defaults lookup. -/
def lookupDefaults (st : RouterState) (model : String) : Option (List String) :=
  st.defaultProviderForModel.lookup model

/-- Explicit-prefix step of the resolver, translated from
src/unnamed/part_008 `resolveProviderAndModel`: split once at the first
slash, lowercase the left part, and accept when it names a registered
provider. -/
def explicitPrefixStep (st : RouterState) (requestedModel : String) :
    Option (String × String) :=
  match splitAtFirstSlash requestedModel.data with
  | some (l, r) =>
    let pName := goToLower (String.mk l)
    if (lookupProvider st pName).isSome then some (pName, String.mk r) else none
  | none => none

/-- Modelled from the spec: the resolver variant for list-valued per-model
defaults called by src/inference_handler.go line 60 is not among the source
files (src/unnamed/part_008 holds only the older single-candidate variant).
Per the specification the explicit-prefix step comes first (translated from
that older source, with which it is identical), and the declared-default
step attempts each candidate provider in listed order, returning the first
that is registered together with the original model string; with no match
the provider is empty and the model string is returned as is. -/
def resolveProviderAndModel (st : RouterState) (requestedModel : String) :
    String × String :=
  match explicitPrefixStep st requestedModel with
  | some pm => pm
  | none =>
    match lookupDefaults st requestedModel with
    | some pNames =>
      match pNames.find? (fun p => (lookupProvider st p).isSome) with
      | some p => (p, requestedModel)
      | none => ("", requestedModel)
    | none => ("", requestedModel)

/-! ## Live fuzzy search and the chat handler flow (src/inference_handler.go,
`handlePostInferenceRequest`) -/

/-- Correction cache (`knownModelsCache`): requested model string to
(provider name, corrected model id). -/
def Cache : Type := List (String × (String × String))

/-- Cache store; an association-list prepend shadows any older entry, like a
`sync.Map` overwrite. -/
def cacheStore (cache : Cache) (k : String) (v : String × String) : Cache :=
  (k, v) :: cache

/-- Cache read. -/
def cacheLoad (cache : Cache) (k : String) : Option (String × String) :=
  List.lookup k cache

/-- Credential service (`auth.ExternalAPIKeyProvider.GetExternalAPIKey`)
for a fixed user: target identifier to key or lookup error. -/
def KeySvc : Type := String → Except String String

/-- Live catalog fetch (`Provider.FetchModels`) outcome per provider: the
catalog's model ids, or a fetch error. -/
def Catalogs : Type := String → Except String (List String)

/-- Inner selection loop of the handler's live search: skip blank ids and
ids not containing the requested string, then keep the first strict
minimiser of the edit distance, tracking Go's `minDist == -1` initial state
as `none`. -/
def fuzzyLoop (dist : String → String → Nat) (req : String) :
    List String → Option (Nat × String) → Option (Nat × String)
  | [], acc => acc
  | id :: rest, acc =>
    if id = "" then fuzzyLoop dist req rest acc
    else if !(goContains id req) then fuzzyLoop dist req rest acc
    else
      match acc with
      | none => fuzzyLoop dist req rest (some (dist req id, id))
      | some (minDist, cm) =>
        if dist req id < minDist then fuzzyLoop dist req rest (some (dist req id, id))
        else fuzzyLoop dist req rest (some (minDist, cm))

/-- Selected catalog id of the live search at one provider, if any.  The
distance function is a parameter standing for the edit-distance library call
(`edlib.DamerauLevenshteinDistance`). -/
def fuzzySelectClosest (dist : String → String → Nat) (req : String)
    (catalog : List String) : Option String :=
  (fuzzyLoop dist req catalog none).map (fun a => a.2)

/-- Outcome of the handler's resolution stage. -/
inductive Resolution where
  | httpError (status : Nat)
  | resolved (provider actualModel : String) (cache : Cache)

/-- Provider loop of the handler's live search (src/inference_handler.go
lines 86 to 152): skip unregistered candidates, fetch a key for the provider
(an error is fatal with 503, an empty key fatal with 403), skip the provider
on a catalog fetch error, and stop at the first provider whose catalog
yields a fuzzy match, storing the correction in the cache.  An exhausted
list is the 400 "no provider found" outcome. -/
def liveSearch (dist : String → String → Nat) (st : RouterState) (ksvc : KeySvc)
    (catalogs : Catalogs) (requested : String) (cache : Cache) :
    List String → Resolution
  | [] => .httpError 400
  | pName :: rest =>
    match lookupProvider st pName with
    | none => liveSearch dist st ksvc catalogs requested cache rest
    | some _ =>
      match ksvc (goToLower pName) with
      | .error _ => .httpError 503
      | .ok key =>
        if key = "" then .httpError 403
        else
          match catalogs pName with
          | .error _ => liveSearch dist st ksvc catalogs requested cache rest
          | .ok catalog =>
            match fuzzySelectClosest dist requested catalog with
            | some chosen =>
              .resolved pName chosen (cacheStore cache requested (pName, chosen))
            | none => liveSearch dist st ksvc catalogs requested cache rest

/-- Resolution stage of `handlePostInferenceRequest`: reject a missing model
field, run the resolver, reject an empty actual model, and — when the
resolver names no provider — consult the correction cache and fall back
to the live search over the declared defaults or the configured provider
order. -/
def resolveForChat (dist : String → String → Nat) (st : RouterState)
    (ksvc : KeySvc) (catalogs : Catalogs) (requested : String) (cache : Cache) :
    Resolution :=
  if requested = "" then .httpError 400
  else
    let pm := resolveProviderAndModel st requested
    if pm.2 = "" then .httpError 400
    else if pm.1 = "" then
      match cacheLoad cache requested with
      | some pam => .resolved pam.1 pam.2 cache
      | none =>
        let candidates :=
          match lookupDefaults st requested with
          | some pNames => pNames
          | none => st.providerOrder
        liveSearch dist st ksvc catalogs requested cache candidates
  else .resolved pm.1 pm.2 cache

/-- Final outcome of the chat handler: a client/infrastructure error, or a
hand-off to the provider's reverse proxy with the resolved provider, actual
model and upstream key. -/
inductive Outcome where
  | httpError (status : Nat)
  | proxied (provider actualModel key : String) (cache : Cache)

/-- Model of `handlePostInferenceRequest` after body parsing: resolution
stage, registry re-lookup (500 when missing), then the upstream key for the
resolved provider — a lookup error is 503 and an empty key 403, both before
any upstream call. -/
def handlePostInference (dist : String → String → Nat) (st : RouterState)
    (ksvc : KeySvc) (catalogs : Catalogs) (requested : String) (cache : Cache) :
    Outcome :=
  match resolveForChat dist st ksvc catalogs requested cache with
  | .httpError s => .httpError s
  | .resolved p am cache2 =>
    match lookupProvider st p with
    | none => .httpError 500
    | some _ =>
      match ksvc (goToLower p) with
      | .error _ => .httpError 503
      | .ok key => if key = "" then .httpError 403 else .proxied p am key cache2

/-! ## Provision and validate lifecycle (src/router.go, `Provision` and
`Validate`) -/

/-- Outcome of the provision-then-validate lifecycle.  `panicked` is the Go
nil-pointer dereference that `Provision` hits when a `provider_order` entry
names no configured provider (`p := cr.Providers[name]; p.Name = name`). -/
inductive ProvisionOutcome where
  | ok
  | fatal
  | panicked
deriving DecidableEq, Repr

/-- Loop of `Provision` over `provider_order`: dereference of the named
provider (panic when absent), then the missing and unparseable base-URL
checks.  `parseOk` stands for Go `url.Parse` succeeding. -/
def checkOrder (parseOk : String → Bool) (providers : List (String × ProviderCfg)) :
    List String → Option ProvisionOutcome
  | [] => none
  | name :: rest =>
    match providers.lookup name with
    | none => some .panicked
    | some cfg =>
      if cfg.apiBaseURL = "" then some .fatal
      else if !(parseOk cfg.apiBaseURL) then some .fatal
      else checkOrder parseOk providers rest

/-- Loop of `Provision` over the per-model defaults: fatal when any listed
candidate provider is not configured. -/
def checkDefaults (providers : List (String × ProviderCfg)) :
    List (String × List String) → Option ProvisionOutcome
  | [] => none
  | (_, pNames) :: rest =>
    if pNames.any (fun pn => (providers.lookup pn).isNone) then some .fatal
    else checkDefaults providers rest

/-- Model of the provision-then-validate lifecycle: the `provider_order`
loop, the defaults loop, then `Validate`'s at-least-one-provider check. -/
def provisionAndValidate (parseOk : String → Bool) (st : RouterState) :
    ProvisionOutcome :=
  match checkOrder parseOk st.providers st.providerOrder with
  | some e => e
  | none =>
    match checkDefaults st.providers st.defaultProviderForModel with
    | some e => e
    | none => if st.providers.isEmpty then .fatal else .ok

/-! ## Catalog aggregation merge (src/models_handler.go,
`handleGetManagedModels`) -/

/-- Aggregated model entry as built by the handler (id and display name). -/
structure ModelInfo where
  id : String
  name : String
deriving DecidableEq, Repr

/-- Inner merge loop of the aggregation handler: append models whose id was
not seen before, and record seen ids. -/
def mergeLoop (seen : List String) (acc : List ModelInfo) :
    List ModelInfo → List String × List ModelInfo
  | [] => (seen, acc)
  | m :: ms =>
    if seen.contains m.id then mergeLoop seen acc ms
    else mergeLoop (m.id :: seen) (acc ++ [m]) ms

/-- Outer merge loop over the per-provider results in arrival order:
failed providers are logged and dropped, successful ones merged with
first-seen de-duplication by id. -/
def mergeAll (seen : List String) (acc : List ModelInfo) :
    List (Except String (List ModelInfo)) → List ModelInfo
  | [] => acc
  | .error _ :: rest => mergeAll seen acc rest
  | .ok ms :: rest =>
    let s := mergeLoop seen acc ms
    mergeAll s.1 s.2 rest

/-- Aggregate payload of the catalog endpoint for a given arrival order of
per-provider results. -/
def aggregateModels (results : List (Except String (List ModelInfo))) :
    List ModelInfo :=
  mergeAll [] [] results

/-- Successful per-provider catalogs, in arrival order. -/
def okResults (results : List (Except String (List ModelInfo))) :
    List (List ModelInfo) :=
  results.filterMap (fun r => r.toOption)

/-- De-duplication keeping the first occurrence of each id, following the
specification's words (first-seen order, skip duplicates by id). -/
def firstSeenDedup : List ModelInfo → List ModelInfo
  | [] => []
  | m :: ms => m :: firstSeenDedup (ms.filter (fun x => !(x.id == m.id)))
termination_by l => l.length
decreasing_by
  simp only [List.length_cons]
  exact Nat.lt_succ_of_le (List.length_filter_le _ _)

/-! ## General helper lemmas -/

theorem strAppendLeftNeEmpty (s t : String) (h : s ≠ "") : s ++ t ≠ "" := by
  intro he
  apply h
  apply String.ext
  have hd := congrArg String.data he
  rw [String.data_append] at hd
  exact (List.append_eq_nil.mp hd).1

theorem splitAtFirstSlash_append (p m : List Char) (hp : ('/' : Char) ∉ p) :
    splitAtFirstSlash (p ++ '/' :: m) = some (p, m) := by
  induction p with
  | nil => simp [splitAtFirstSlash]
  | cons c cs ih =>
    have hc : c ≠ '/' := fun hcc => hp (hcc ▸ List.mem_cons_self c cs)
    have hcs : ('/' : Char) ∉ cs := fun hmem => hp (List.mem_cons_of_mem c hmem)
    simp [splitAtFirstSlash, hc, ih hcs]

/-! ## Claim C5 (code bug): the Anthropic adapter moves the entire
`Authorization` value into `x-api-key` without stripping the `Bearer `
prefix. -/

/-- Claim C5, evaluated at the failing input: after the handler installs
`Authorization: Bearer sk-test` and the Anthropic adapter rewrites headers,
the outbound request indeed carries no `Authorization` header, but
`x-api-key` is the full `Bearer sk-test` string rather than the bare token
`sk-test` that the claim asserts. -/
theorem claim5_x_api_key_keeps_bearer_prefix :
    (anthropicModifyHeaders (setOutgoingAuth "sk-test"
        { authorization := none, xApiKey := none, contentType := none })).authorization
      = none ∧
    (anthropicModifyHeaders (setOutgoingAuth "sk-test"
        { authorization := none, xApiKey := none, contentType := none })).xApiKey
      = some ("Bearer " ++ "sk-test") ∧
    (anthropicModifyHeaders (setOutgoingAuth "sk-test"
        { authorization := none, xApiKey := none, contentType := none })).xApiKey
      ≠ some "sk-test" := by
  refine ⟨rfl, rfl, ?_⟩
  decide

/-! ## Claim C10: the Google response translation is not total. -/

/-- Claim C10: the Google response translation panics (modelled as `none`)
on a well-formed generateContent response whose first candidate has an empty
parts list, and for a first candidate with at least one part it returns a
single-choice unified response built from that part's text. -/
theorem claim10_google_translation_partial :
    transformResponseFromGoogleAI 0
        { candidates := [{ content := { role := "model", parts := [] },
                           finishReason := "STOP", index := 0 }] } = none ∧
    (∀ (now : Int) (resp : GoogleAIGenerateContentResponse)
       (c : GoogleAICandidate) (cs : List GoogleAICandidate)
       (p : GoogleAIPart) (ps : List GoogleAIPart),
      resp.candidates = c :: cs → c.content.parts = p :: ps →
      transformResponseFromGoogleAI now resp =
        some { id := "gen-" ++ toString now
               object := "chat.completion"
               created := now
               model := c.content.role
               choices := [{ index := 0
                             message := { role := "assistant", content := p.text }
                             finishReason := c.finishReason }]
               usage := none }) := by
  refine ⟨rfl, ?_⟩
  intro now resp c cs p ps hc hp
  simp [transformResponseFromGoogleAI, hc, hp]

/-- Witness for claim C10 at a concrete response. -/
theorem claim10_google_translation_partial_witness :
    transformResponseFromGoogleAI 5
        { candidates := [{ content := { role := "model", parts := [{ text := "hello" }] },
                           finishReason := "STOP", index := 0 }] } =
      some { id := "gen-5", object := "chat.completion", created := 5,
             model := "model",
             choices := [{ index := 0,
                           message := { role := "assistant", content := "hello" },
                           finishReason := "STOP" }],
             usage := none } :=
  claim10_google_translation_partial.2 5 _ _ _ _ _ rfl rfl

/-! ## Claim C2: explicit provider prefix resolution. -/

/-- Claim C2: for a model string `p ++ "/" ++ m` whose pre-slash part `p`
case-insensitively names a registered provider, the resolver splits once at
the first slash and returns the lowercased provider with the rest of the
string unmodified (the rest may contain further slashes). -/
theorem claim2_explicit_prefix_resolution (st : RouterState) (p m : String)
    (hp : ('/' : Char) ∉ p.data)
    (hreg : (lookupProvider st (goToLower p)).isSome) :
    resolveProviderAndModel st (p ++ "/" ++ m) = (goToLower p, m) := by
  have hdata : (p ++ "/" ++ m).data = p.data ++ '/' :: m.data := by
    rw [String.data_append, String.data_append, List.append_assoc]
    rfl
  have hsplit : splitAtFirstSlash (p ++ "/" ++ m).data = some (p.data, m.data) := by
    rw [hdata]
    exact splitAtFirstSlash_append p.data m.data hp
  unfold resolveProviderAndModel explicitPrefixStep
  rw [hsplit]
  have hmkp : String.mk p.data = p := rfl
  have hmkm : String.mk m.data = m := rfl
  simp only [hmkp, hmkm, hreg, if_pos]

/-- Witness for claim C2: a registered provider `openai`, addressed with
mixed case and a model that itself contains a slash. -/
theorem claim2_explicit_prefix_resolution_witness :
    resolveProviderAndModel
        { providers := [("openai", { apiBaseURL := "https://api.openai.com/v1", style := "" })],
          defaultProviderForModel := [], providerOrder := ["openai"] }
        ("OpenAI" ++ "/" ++ "gpt-4o/mini") = ("openai", "gpt-4o/mini") := by
  have hlow : goToLower "OpenAI" = "openai" := by decide
  have h := claim2_explicit_prefix_resolution
    { providers := [("openai", { apiBaseURL := "https://api.openai.com/v1", style := "" })],
      defaultProviderForModel := [], providerOrder := ["openai"] }
    "OpenAI" "gpt-4o/mini" (by decide) (by rw [hlow]; decide)
  rw [hlow] at h
  exact h

/-! ## Claim C1: declared per-model defaults. -/

/-- Claim C1 (amended): for a requested model `m` in the per-model defaults
map with first candidate `p1` registered, and on which the explicit-prefix
rule does not fire, the resolver returns `(p1, m)` — and the chat handler's
whole resolution stage returns exactly that pair, leaving the correction
cache untouched. -/
theorem claim1_declared_default_first_candidate (st : RouterState)
    (m p1 : String) (ps : List String)
    (hm : m ≠ "") (hp1ne : p1 ≠ "")
    (hpre : explicitPrefixStep st m = none)
    (hd : lookupDefaults st m = some (p1 :: ps))
    (hp1 : (lookupProvider st p1).isSome) :
    resolveProviderAndModel st m = (p1, m) ∧
    ∀ (dist : String → String → Nat) (ksvc : KeySvc) (catalogs : Catalogs)
      (cache : Cache),
      resolveForChat dist st ksvc catalogs m cache = .resolved p1 m cache := by
  have hfind : (p1 :: ps).find? (fun p => (lookupProvider st p).isSome) = some p1 := by
    simp [List.find?, hp1]
  have hres : resolveProviderAndModel st m = (p1, m) := by
    unfold resolveProviderAndModel
    rw [hpre, hd]
    simp [hfind]
  refine ⟨hres, ?_⟩
  intro dist ksvc catalogs cache
  unfold resolveForChat
  rw [if_neg hm, hres]
  simp [hm, hp1ne]

/-- Witness for claim C1: model `claude-3-opus-20240229` mapped to the
candidate list `[anthropic, openrouter]` with `anthropic` registered. -/
theorem claim1_declared_default_first_candidate_witness :
    resolveProviderAndModel
        { providers := [("anthropic", { apiBaseURL := "https://api.anthropic.com/v1", style := "anthropic" }),
                        ("openrouter", { apiBaseURL := "https://openrouter.ai/api/v1", style := "" })],
          defaultProviderForModel := [("claude-3-opus-20240229", ["anthropic", "openrouter"])],
          providerOrder := ["anthropic", "openrouter"] }
        "claude-3-opus-20240229" = ("anthropic", "claude-3-opus-20240229") :=
  (claim1_declared_default_first_candidate
    { providers := [("anthropic", { apiBaseURL := "https://api.anthropic.com/v1", style := "anthropic" }),
                    ("openrouter", { apiBaseURL := "https://openrouter.ai/api/v1", style := "" })],
      defaultProviderForModel := [("claude-3-opus-20240229", ["anthropic", "openrouter"])],
      providerOrder := ["anthropic", "openrouter"] }
    "claude-3-opus-20240229" "anthropic" ["openrouter"]
    (by decide) (by decide) (by decide) (by decide) (by decide)).1

/-- Configuration refuting claim C1 as stated: the model string `a/x` sits
in the defaults map with registered first candidate `b`, but also carries
the registered provider prefix `a`. -/
def stClaim1Cex : RouterState :=
  { providers := [("a", { apiBaseURL := "https://a.example", style := "" }),
                  ("b", { apiBaseURL := "https://b.example", style := "" })],
    defaultProviderForModel := [("a/x", ["b"])],
    providerOrder := ["a", "b"] }

/-- Counterexample to claim C1 as stated: `a/x` appears in the defaults map
with registered first candidate `b`, yet the resolver returns `("a", "x")`
via the higher-priority explicit-prefix rule, not `("b", "a/x")`. -/
theorem claim1_declared_default_counterexample :
    lookupDefaults stClaim1Cex "a/x" = some ["b"] ∧
    (lookupProvider stClaim1Cex "b").isSome ∧
    resolveProviderAndModel stClaim1Cex "a/x" = ("a", "x") ∧
    resolveProviderAndModel stClaim1Cex "a/x" ≠ ("b", "a/x") := by
  refine ⟨by decide, by decide, ?_, ?_⟩ <;> decide

/-! ## Claim C6: Anthropic request translation. -/

theorem anthropicLoop_fst (msgs : List UnifiedChatMessage) :
    ∀ (sys : String) (acc : List AnthropicMessage),
      (anthropicLoop sys acc msgs).1 =
        List.foldl anthropicSystemAppend sys (systemContents msgs) := by
  induction msgs with
  | nil => intro sys acc; rfl
  | cons m ms ih =>
    intro sys acc
    by_cases h : m.role = "system"
    · simp [anthropicLoop, h, systemContents, List.filter, ih]
    · simp [anthropicLoop, h, systemContents, List.filter, ih]

theorem anthropicLoop_snd (msgs : List UnifiedChatMessage) :
    ∀ (sys : String) (acc : List AnthropicMessage),
      (anthropicLoop sys acc msgs).2 =
        acc ++ (msgs.filter (fun m => !(m.role = "system"))).map
          (fun m => { role := if m.role = "assistant" then "assistant" else "user",
                      content := m.content }) := by
  induction msgs with
  | nil => intro sys acc; simp [anthropicLoop]
  | cons m ms ih =>
    intro sys acc
    by_cases h : m.role = "system"
    · simp [anthropicLoop, h, List.filter, ih]
    · simp only [anthropicLoop, h, if_neg, ite_false]
      rw [ih]
      simp [List.filter, h]

theorem foldl_anthropicSystemAppend_joinNL (cs : List String) :
    ∀ (s : String), s ≠ "" →
      List.foldl anthropicSystemAppend s cs = joinNL (s :: cs) := by
  induction cs with
  | nil => intro s _; rfl
  | cons c cs ih =>
    intro s hs
    have hstep : anthropicSystemAppend s c = s ++ "\n" ++ c := by
      simp [anthropicSystemAppend, hs]
    have hne : s ++ "\n" ++ c ≠ "" :=
      strAppendLeftNeEmpty _ _ (strAppendLeftNeEmpty _ _ hs)
    rw [List.foldl_cons, hstep, ih _ hne]
    cases cs with
    | nil => rfl
    | cons d ds =>
      show joinNL ((s ++ "\n" ++ c) :: d :: ds) = joinNL (s :: c :: d :: ds)
      simp only [joinNL]
      simp [String.append_assoc]

/-- Claim C6 (amended): provided the first system message (if any) has
nonempty content, the translated request's `system` field is the system
contents joined by newlines; the translated message list is the non-system
messages with every role other than `assistant` coerced to `user` (so it
holds zero system entries); and `max_tokens` is 1024 exactly when the
unified request omits it, else the supplied value. -/
theorem claim6_anthropic_request_translation (modelName : String)
    (req : UnifiedChatRequest)
    (hfst : ∀ c cs, systemContents req.messages = c :: cs → c ≠ "") :
    (transformRequestToAnthropic modelName req).system =
      joinNL (systemContents req.messages) ∧
    (∀ m ∈ (transformRequestToAnthropic modelName req).messages,
      m.role ≠ "system") ∧
    (transformRequestToAnthropic modelName req).messages =
      (req.messages.filter (fun m => !(m.role = "system"))).map
        (fun m => { role := if m.role = "assistant" then "assistant" else "user",
                    content := m.content }) ∧
    (transformRequestToAnthropic modelName req).maxTokens =
      (match req.maxTokens with | some v => v | none => 1024) := by
  have hmsgs : (transformRequestToAnthropic modelName req).messages =
      (req.messages.filter (fun m => !(m.role = "system"))).map
        (fun m => { role := if m.role = "assistant" then "assistant" else "user",
                    content := m.content }) := by
    unfold transformRequestToAnthropic
    simpa using anthropicLoop_snd req.messages "" []
  refine ⟨?_, ?_, hmsgs, rfl⟩
  · unfold transformRequestToAnthropic
    show (anthropicLoop "" [] req.messages).1 = joinNL (systemContents req.messages)
    rw [anthropicLoop_fst]
    cases hsc : systemContents req.messages with
    | nil => rfl
    | cons c cs =>
      have hc : c ≠ "" := hfst c cs hsc
      have hfirst : anthropicSystemAppend "" c = c := by
        simp [anthropicSystemAppend]
      rw [List.foldl_cons, hfirst]
      exact foldl_anthropicSystemAppend_joinNL cs c hc
  · intro m hm
    rw [hmsgs] at hm
    obtain ⟨x, _, hx⟩ := List.mem_map.mp hm
    intro hrole
    rw [← hx] at hrole
    by_cases ha : x.role = "assistant" <;> simp [ha] at hrole

/-- Witness for claim C6: two nonempty system messages and a mixed tail. -/
theorem claim6_anthropic_request_translation_witness :
    (transformRequestToAnthropic "claude-3"
      { model := "claude-3", stream := false, maxTokens := none, temperature := none,
        messages := [{ role := "system", content := "a" },
                     { role := "system", content := "b" },
                     { role := "tool", content := "t" },
                     { role := "assistant", content := "r" }] }).system =
      joinNL (systemContents [{ role := "system", content := "a" },
                              { role := "system", content := "b" },
                              { role := "tool", content := "t" },
                              { role := "assistant", content := "r" }]) ∧
    (transformRequestToAnthropic "claude-3"
      { model := "claude-3", stream := false, maxTokens := none, temperature := none,
        messages := [{ role := "system", content := "a" },
                     { role := "system", content := "b" },
                     { role := "tool", content := "t" },
                     { role := "assistant", content := "r" }] }).maxTokens = 1024 := by
  have h := claim6_anthropic_request_translation "claude-3"
    { model := "claude-3", stream := false, maxTokens := none, temperature := none,
      messages := [{ role := "system", content := "a" },
                   { role := "system", content := "b" },
                   { role := "tool", content := "t" },
                   { role := "assistant", content := "r" }] }
    (by intro c cs h; simp [systemContents, List.filter] at h; rw [← h.1]; decide)
  exact ⟨h.1, h.2.2.2⟩

/-- Request refuting the unconditional newline-join reading of claim C6:
the first system message is empty. -/
def reqClaim6Cex : UnifiedChatRequest :=
  { model := "claude-3", stream := false, maxTokens := none, temperature := none,
    messages := [{ role := "system", content := "" },
                 { role := "system", content := "b" }] }

/-- Counterexample to claim C6 as stated: with system contents `["", "b"]`
the code produces the system field `"b"`, not the newline join `"\nb"`. -/
theorem claim6_anthropic_request_translation_counterexample :
    (transformRequestToAnthropic "claude-3" reqClaim6Cex).system = "b" ∧
    joinNL (systemContents reqClaim6Cex.messages) = "\nb" ∧
    (transformRequestToAnthropic "claude-3" reqClaim6Cex).system ≠
      joinNL (systemContents reqClaim6Cex.messages) := by
  refine ⟨rfl, rfl, ?_⟩
  decide

/-! ## Claim C4: credential failures are fatal, catalog failures skip. -/

/-- Claim C4: during the live search a credential error at a registered
candidate ends the request with 503 and an empty key with 403, while a
catalog fetch error merely skips that provider and continues; and at the
proxy stage the key lookup for the resolved provider likewise ends the
request with 503 on error and 403 on an empty key, before any upstream
call (the outcome is an error, not a proxy hand-off). -/
theorem claim4_credential_failures_fatal :
    (∀ (dist : String → String → Nat) (st : RouterState) (ksvc : KeySvc)
       (catalogs : Catalogs) (req : String) (cache : Cache)
       (p : String) (rest : List String) (cfg : ProviderCfg),
      lookupProvider st p = some cfg →
      (∀ e, ksvc (goToLower p) = .error e →
        liveSearch dist st ksvc catalogs req cache (p :: rest) = .httpError 503) ∧
      (ksvc (goToLower p) = .ok "" →
        liveSearch dist st ksvc catalogs req cache (p :: rest) = .httpError 403) ∧
      (∀ k e2, ksvc (goToLower p) = .ok k → k ≠ "" → catalogs p = .error e2 →
        liveSearch dist st ksvc catalogs req cache (p :: rest) =
          liveSearch dist st ksvc catalogs req cache rest)) ∧
    (∀ (dist : String → String → Nat) (st : RouterState) (ksvc : KeySvc)
       (catalogs : Catalogs) (req : String) (cache : Cache)
       (p am : String) (cache2 : Cache) (cfg : ProviderCfg),
      resolveForChat dist st ksvc catalogs req cache = .resolved p am cache2 →
      lookupProvider st p = some cfg →
      (∀ e, ksvc (goToLower p) = .error e →
        handlePostInference dist st ksvc catalogs req cache = .httpError 503) ∧
      (ksvc (goToLower p) = .ok "" →
        handlePostInference dist st ksvc catalogs req cache = .httpError 403)) := by
  constructor
  · intro dist st ksvc catalogs req cache p rest cfg hreg
    refine ⟨?_, ?_, ?_⟩
    · intro e he
      simp only [liveSearch]
      rw [hreg, he]
    · intro he
      simp only [liveSearch]
      rw [hreg, he]
      simp
    · intro k e2 hk hkne hcat
      simp only [liveSearch]
      rw [hreg, hk, hcat]
      simp [hkne]
  · intro dist st ksvc catalogs req cache p am cache2 cfg hres hreg
    constructor
    · intro e he
      unfold handlePostInference
      rw [hres]
      simp [hreg, he]
    · intro he
      unfold handlePostInference
      rw [hres]
      simp [hreg, he]

/-- Provider registry used by the witness of claim C4. -/
def stClaim4 : RouterState :=
  { providers := [("a", { apiBaseURL := "https://a.example", style := "" })],
    defaultProviderForModel := [], providerOrder := ["a"] }

/-- Witness for claim C4: a one-provider registry exercised with an erroring
key service, an empty-key service, and a failing catalog fetch, plus the
proxy-stage key error after an explicit-prefix resolution. -/
theorem claim4_credential_failures_fatal_witness :
    liveSearch (fun _ _ => 0) stClaim4 (fun _ => .error "boom") (fun _ => .ok [])
      "m" [] ["a"] = .httpError 503 ∧
    liveSearch (fun _ _ => 0) stClaim4 (fun _ => .ok "") (fun _ => .ok [])
      "m" [] ["a"] = .httpError 403 ∧
    liveSearch (fun _ _ => 0) stClaim4 (fun _ => .ok "k") (fun _ => .error "down")
      "m" [] ["a"] =
      liveSearch (fun _ _ => 0) stClaim4 (fun _ => .ok "k") (fun _ => .error "down")
        "m" [] [] ∧
    handlePostInference (fun _ _ => 0) stClaim4 (fun _ => .error "boom")
      (fun _ => .ok []) "a/x" [] = .httpError 503 := by
  refine ⟨?_, ?_, ?_, ?_⟩
  · exact ((claim4_credential_failures_fatal.1 (fun _ _ => 0) stClaim4
      (fun _ => .error "boom") (fun _ => .ok []) "m" [] "a" [] _ rfl).1 "boom" rfl)
  · exact ((claim4_credential_failures_fatal.1 (fun _ _ => 0) stClaim4
      (fun _ => .ok "") (fun _ => .ok []) "m" [] "a" [] _ rfl).2.1 rfl)
  · exact ((claim4_credential_failures_fatal.1 (fun _ _ => 0) stClaim4
      (fun _ => .ok "k") (fun _ => .error "down") "m" [] "a" [] _ rfl).2.2
      "k" "down" rfl (by decide) rfl)
  · exact ((claim4_credential_failures_fatal.2 (fun _ _ => 0) stClaim4
      (fun _ => .error "boom") (fun _ => .ok []) "a/x" [] "a" "x" [] _ rfl rfl).1
      "boom" rfl)

/-! ## Claim C3: live fuzzy search selection, caching and termination. -/

/-- Pure strict-minimum fold underlying the selection loop, on an already
filtered candidate list. -/
def minFold (f : String → Nat) : List String → Option (Nat × String) → Option (Nat × String)
  | [], acc => acc
  | x :: xs, acc =>
    match acc with
    | none => minFold f xs (some (f x, x))
    | some (d, c) =>
      if f x < d then minFold f xs (some (f x, x)) else minFold f xs (some (d, c))

theorem strDataNeNil (s : String) (h : s ≠ "") : s.data ≠ [] := by
  intro hd
  exact h (String.ext (by rw [hd]))

theorem goContains_empty_left (req : String) (h : req ≠ "") :
    goContains "" req = false := by
  have : req.data ≠ [] := strDataNeNil req h
  cases hreq : req.data with
  | nil => exact absurd hreq this
  | cons a as =>
    simp [goContains, infixCheck, hreq, List.isEmpty]

theorem fuzzyLoop_eq_minFold (dist : String → String → Nat) (req : String)
    (hreq : req ≠ "") :
    ∀ (l : List String) (acc : Option (Nat × String)),
      fuzzyLoop dist req l acc =
        minFold (dist req) (l.filter (fun c => goContains c req)) acc := by
  intro l
  induction l with
  | nil => intro acc; rfl
  | cons id rest ih =>
    intro acc
    by_cases hid : id = ""
    · subst hid
      have hcf : goContains "" req = false := goContains_empty_left req hreq
      simp [fuzzyLoop, List.filter, hcf, ih]
    · by_cases hc : goContains id req
      · cases acc with
        | none => simp [fuzzyLoop, minFold, hid, hc, ih, List.filter]
        | some dc =>
          obtain ⟨d, c⟩ := dc
          by_cases hlt : dist req id < d
          · simp [fuzzyLoop, minFold, hid, hc, hlt, ih, List.filter]
          · simp [fuzzyLoop, minFold, hid, hc, hlt, ih, List.filter]
      · have hcf : goContains id req = false := by
          cases hcc : goContains id req with
          | false => rfl
          | true => exact absurd hcc hc
        simp [fuzzyLoop, hid, hcf, List.filter, ih]

theorem minFold_some (f : String → Nat) :
    ∀ (l : List String) (c0 : String),
      ∃ c, minFold f l (some (f c0, c0)) = some (f c, c) ∧
        ((c = c0 ∧ ∀ x ∈ l, f c0 ≤ f x) ∨
         (∃ l₁ l₂, l = l₁ ++ c :: l₂ ∧ f c < f c0 ∧
           (∀ x ∈ l₁, f c < f x) ∧ (∀ x ∈ l₂, f c ≤ f x))) := by
  intro l
  induction l with
  | nil =>
    intro c0
    exact ⟨c0, rfl, Or.inl ⟨rfl, by simp⟩⟩
  | cons x xs ih =>
    intro c0
    by_cases hx : f x < f c0
    · obtain ⟨c, hc, hdisj⟩ := ih x
      refine ⟨c, ?_, ?_⟩
      · simp [minFold, hx, hc]
      · rcases hdisj with ⟨hcx, hall⟩ | ⟨l₁, l₂, hsplit, hlt, h₁, h₂⟩
        · subst hcx
          exact Or.inr ⟨[], xs, by simp, hx, by simp, hall⟩
        · refine Or.inr ⟨x :: l₁, l₂, by rw [hsplit]; rfl,
            Nat.lt_trans hlt hx, ?_, h₂⟩
          intro y hy
          rcases List.mem_cons.mp hy with hyx | hyl
          · rw [hyx]; exact hlt
          · exact h₁ y hyl
    · obtain ⟨c, hc, hdisj⟩ := ih c0
      refine ⟨c, ?_, ?_⟩
      · simp [minFold, hx, hc]
      · rcases hdisj with ⟨hcc, hall⟩ | ⟨l₁, l₂, hsplit, hlt, h₁, h₂⟩
        · refine Or.inl ⟨hcc, ?_⟩
          intro y hy
          rcases List.mem_cons.mp hy with hyx | hyl
          · rw [hyx]; exact Nat.le_of_not_lt hx
          · exact hall y hyl
        · refine Or.inr ⟨x :: l₁, l₂, by rw [hsplit]; rfl, hlt, ?_, h₂⟩
          intro y hy
          rcases List.mem_cons.mp hy with hyx | hyl
          · rw [hyx]; exact Nat.lt_of_lt_of_le hlt (Nat.le_of_not_lt hx)
          · exact h₁ y hyl

/-- Claim C3: the live search's selected id is a catalog entry containing
the requested string, earliest among the minimisers of the distance
function (the filtered candidate list splits around it, everything before
it strictly farther, everything after it no closer); and on a match the
provider loop stops at that provider and stores the correction
`requested ↦ (provider, chosen)` in the cache. -/
theorem claim3_fuzzy_search_selection :
    (∀ (dist : String → String → Nat) (req : String) (catalog : List String)
       (chosen : String),
      req ≠ "" → fuzzySelectClosest dist req catalog = some chosen →
      chosen ∈ catalog ∧ goContains chosen req = true ∧
      ∃ l₁ l₂, catalog.filter (fun c => goContains c req) = l₁ ++ chosen :: l₂ ∧
        (∀ x ∈ l₁, dist req chosen < dist req x) ∧
        (∀ x ∈ l₂, dist req chosen ≤ dist req x)) ∧
    (∀ (dist : String → String → Nat) (st : RouterState) (ksvc : KeySvc)
       (catalogs : Catalogs) (req : String) (cache : Cache)
       (p : String) (rest : List String) (cfg : ProviderCfg)
       (k : String) (catalog : List String) (chosen : String),
      lookupProvider st p = some cfg → ksvc (goToLower p) = .ok k → k ≠ "" →
      catalogs p = .ok catalog →
      fuzzySelectClosest dist req catalog = some chosen →
      liveSearch dist st ksvc catalogs req cache (p :: rest) =
        .resolved p chosen (cacheStore cache req (p, chosen))) := by
  constructor
  · intro dist req catalog chosen hreq hsel
    unfold fuzzySelectClosest at hsel
    rw [fuzzyLoop_eq_minFold dist req hreq catalog none] at hsel
    cases hcands : catalog.filter (fun c => goContains c req) with
    | nil =>
      rw [hcands] at hsel
      simp [minFold] at hsel
    | cons x xs =>
      rw [hcands] at hsel
      have hstep : minFold (dist req) (x :: xs) none =
          minFold (dist req) xs (some (dist req x, x)) := rfl
      rw [hstep] at hsel
      obtain ⟨c, hc, hdisj⟩ := minFold_some (dist req) xs x
      rw [hc] at hsel
      have hchosen : c = chosen := by simpa using hsel
      subst hchosen
      have hdecomp : ∃ l₁ l₂, x :: xs = l₁ ++ c :: l₂ ∧
          (∀ y ∈ l₁, dist req c < dist req y) ∧
          (∀ y ∈ l₂, dist req c ≤ dist req y) := by
        rcases hdisj with ⟨hcx, hall⟩ | ⟨l₁, l₂, hsp, hlt, h₁, h₂⟩
        · subst hcx
          exact ⟨[], xs, by simp, by simp, hall⟩
        · refine ⟨x :: l₁, l₂, ?_, ?_, h₂⟩
          · rw [hsp]
            exact (List.cons_append x l₁ (c :: l₂)).symm
          · intro y hy
            rcases List.mem_cons.mp hy with hyx | hyl
            · rw [hyx]; exact hlt
            · exact h₁ y hyl
      obtain ⟨l₁, l₂, hsp, h₁, h₂⟩ := hdecomp
      have hmemx : c ∈ x :: xs := by
        rw [hsp]
        exact List.mem_append.mpr (Or.inr (List.mem_cons_self c l₂))
      have hmemf : c ∈ catalog.filter (fun c2 => goContains c2 req) := by
        rw [hcands]
        exact hmemx
      have hmem := List.mem_filter.mp hmemf
      exact ⟨hmem.1, hmem.2, l₁, l₂, hsp, h₁, h₂⟩
  · intro dist st ksvc catalogs req cache p rest cfg k catalog chosen
      hreg hk hkne hcat hsel
    simp only [liveSearch]
    rw [hreg, hk, hcat]
    simp [hkne, hsel]

/-- Provider registry used by the witness of claim C3. -/
def stClaim3 : RouterState :=
  { providers := [("cf", { apiBaseURL := "https://cf.example", style := "cloudflare" })],
    defaultProviderForModel := [], providerOrder := ["cf"] }

/-- Witness for claim C3 at a concrete catalog: requesting `qwq` against
`["zzz", "@cf/qwen/qwq-32b"]` with a length-difference distance selects the
only substring match, and the provider loop resolves and caches it. -/
theorem claim3_fuzzy_search_selection_witness :
    (("@cf/qwen/qwq-32b" : String) ∈ (["zzz", "@cf/qwen/qwq-32b"] : List String) ∧
      goContains "@cf/qwen/qwq-32b" "qwq" = true ∧
      ∃ l₁ l₂,
        (["zzz", "@cf/qwen/qwq-32b"] : List String).filter
            (fun c => goContains c "qwq") = l₁ ++ "@cf/qwen/qwq-32b" :: l₂ ∧
        (∀ x ∈ l₁, (fun a b : String => b.length - a.length) "qwq" "@cf/qwen/qwq-32b" <
          (fun a b : String => b.length - a.length) "qwq" x) ∧
        (∀ x ∈ l₂, (fun a b : String => b.length - a.length) "qwq" "@cf/qwen/qwq-32b" ≤
          (fun a b : String => b.length - a.length) "qwq" x)) ∧
    liveSearch (fun a b : String => b.length - a.length) stClaim3
        (fun _ => .ok "key") (fun _ => .ok ["zzz", "@cf/qwen/qwq-32b"])
        "qwq" [] ["cf"] =
      .resolved "cf" "@cf/qwen/qwq-32b"
        (cacheStore [] "qwq" ("cf", "@cf/qwen/qwq-32b")) := by
  constructor
  · exact claim3_fuzzy_search_selection.1 (fun a b : String => b.length - a.length)
      "qwq" ["zzz", "@cf/qwen/qwq-32b"] "@cf/qwen/qwq-32b" (by decide) (by decide)
  · exact claim3_fuzzy_search_selection.2 (fun a b : String => b.length - a.length)
      stClaim3 (fun _ => .ok "key") (fun _ => .ok ["zzz", "@cf/qwen/qwq-32b"])
      "qwq" [] "cf" [] _ "key" ["zzz", "@cf/qwen/qwq-32b"] "@cf/qwen/qwq-32b"
      rfl rfl (by decide) rfl (by decide)

/-! ## Claim C8: catalog aggregation merge. -/

/-- Seen-id set after the merge walks a model list. -/
def seenOut (seen : List String) : List ModelInfo → List String
  | [] => seen
  | m :: ms =>
    if seen.contains m.id then seenOut seen ms else seenOut (m.id :: seen) ms

/-- Models of a list that survive the merge against a seen-id set, keeping
the first occurrence of each unseen id. -/
def dedupFrom (seen : List String) : List ModelInfo → List ModelInfo
  | [] => []
  | m :: ms =>
    if seen.contains m.id then dedupFrom seen ms
    else m :: dedupFrom (m.id :: seen) ms

theorem mergeLoop_eq (l : List ModelInfo) :
    ∀ (seen : List String) (acc : List ModelInfo),
      mergeLoop seen acc l = (seenOut seen l, acc ++ dedupFrom seen l) := by
  induction l with
  | nil => intro seen acc; simp [mergeLoop, seenOut, dedupFrom]
  | cons m ms ih =>
    intro seen acc
    by_cases h : m.id ∈ seen
    · simp [mergeLoop, seenOut, dedupFrom, h, ih]
    · simp [mergeLoop, seenOut, dedupFrom, h, ih]

theorem dedupFrom_append (a : List ModelInfo) :
    ∀ (seen : List String) (b : List ModelInfo),
      dedupFrom seen (a ++ b) = dedupFrom seen a ++ dedupFrom (seenOut seen a) b := by
  induction a with
  | nil => intro seen b; simp [dedupFrom, seenOut]
  | cons m ms ih =>
    intro seen b
    by_cases h : m.id ∈ seen
    · simp [dedupFrom, seenOut, h, ih]
    · simp [dedupFrom, seenOut, h, ih]

theorem mergeAll_eq (results : List (Except String (List ModelInfo))) :
    ∀ (seen : List String) (acc : List ModelInfo),
      mergeAll seen acc results = acc ++ dedupFrom seen (okResults results).flatten := by
  induction results with
  | nil => intro seen acc; simp [mergeAll, okResults, dedupFrom]
  | cons r rest ih =>
    intro seen acc
    cases r with
    | error e => simp [mergeAll, okResults, Except.toOption, ih]
    | ok ms =>
      have hok : (okResults (.ok ms :: rest)).flatten =
          ms ++ (okResults rest).flatten := by
        simp [okResults, Except.toOption]
      rw [hok]
      show mergeAll (mergeLoop seen acc ms).1 (mergeLoop seen acc ms).2 rest = _
      rw [mergeLoop_eq ms seen acc]
      rw [ih]
      simp [dedupFrom_append]

theorem dedupFrom_eq_firstSeenDedup (l : List ModelInfo) :
    ∀ (seen : List String),
      dedupFrom seen l = firstSeenDedup (l.filter (fun m => !(seen.contains m.id))) := by
  induction l with
  | nil => intro seen; simp [dedupFrom, firstSeenDedup]
  | cons m ms ih =>
    intro seen
    by_cases h : m.id ∈ seen
    · simp [dedupFrom, h, ih, List.filter_cons]
    · have hstep : dedupFrom seen (m :: ms) = m :: dedupFrom (m.id :: seen) ms := by
        simp [dedupFrom, h]
      have hfstep : (m :: ms).filter (fun x => !(seen.contains x.id)) =
          m :: ms.filter (fun x => !(seen.contains x.id)) := by
        simp [List.filter_cons, h]
      rw [hstep, hfstep, ih (m.id :: seen)]
      have hfilters :
          ms.filter (fun x => !((m.id :: seen).contains x.id)) =
            (ms.filter (fun x => !(seen.contains x.id))).filter
              (fun x => !(x.id == m.id)) := by
        rw [List.filter_filter]
        apply List.filter_congr
        intro x _
        by_cases hx : x.id = m.id <;> simp [hx]
      rw [hfilters]
      simp [firstSeenDedup]

theorem dedupFrom_ids_fresh (l : List ModelInfo) :
    ∀ (seen : List String),
      (((dedupFrom seen l).map (fun m => m.id)).Nodup ∧
        ∀ x ∈ dedupFrom seen l, x.id ∉ seen) := by
  induction l with
  | nil => intro seen; simp [dedupFrom]
  | cons m ms ih =>
    intro seen
    by_cases h : m.id ∈ seen
    · simpa [dedupFrom, h] using ih seen
    · obtain ⟨hnodup, hfresh⟩ := ih (m.id :: seen)
      have hstep : dedupFrom seen (m :: ms) = m :: dedupFrom (m.id :: seen) ms := by
        simp [dedupFrom, h]
      rw [hstep]
      constructor
      · simp only [List.map_cons, List.nodup_cons]
        refine ⟨?_, hnodup⟩
        intro hmem
        obtain ⟨x, hx, hxid⟩ := List.mem_map.mp hmem
        exact (hfresh x hx) (by rw [hxid]; exact List.mem_cons_self _ _)
      · intro x hx
        rcases List.mem_cons.mp hx with hxm | hxd
        · rw [hxm]; exact h
        · exact fun hxin => (hfresh x hxd) (List.mem_cons_of_mem _ hxin)

/-- Claim C8 (amended): for one fixed arrival order of per-provider results,
the aggregation merge is the first-seen de-duplication of the concatenated
successful catalogs — entries in first-seen order with at most one entry per
model id (the resulting id list has no duplicates). -/
theorem claim8_merge_first_seen_dedup
    (results : List (Except String (List ModelInfo))) :
    aggregateModels results = firstSeenDedup (okResults results).flatten ∧
    ((aggregateModels results).map (fun m => m.id)).Nodup := by
  have h1 : aggregateModels results = dedupFrom [] (okResults results).flatten := by
    unfold aggregateModels
    rw [mergeAll_eq]
    simp
  constructor
  · rw [h1, dedupFrom_eq_firstSeenDedup]
    congr 1
    exact List.filter_eq_self.mpr (fun a _ => by simp)
  · rw [h1]
    exact (dedupFrom_ids_fresh (okResults results).flatten []).1

/-- Counterexample to claim C8 as stated: the same two fixed single-entry
catalogs, arriving in the two orders that the concurrent fan-out (Go map
iteration plus goroutine completion) can produce, yield different payloads —
so two invocations over an unchanged upstream state need not be
byte-identical. -/
theorem claim8_merge_order_counterexample :
    aggregateModels [.ok [{ id := "a", name := "a" }], .ok [{ id := "b", name := "b" }]] =
      [{ id := "a", name := "a" }, { id := "b", name := "b" }] ∧
    aggregateModels [.ok [{ id := "b", name := "b" }], .ok [{ id := "a", name := "a" }]] =
      [{ id := "b", name := "b" }, { id := "a", name := "a" }] ∧
    aggregateModels [.ok [{ id := "a", name := "a" }], .ok [{ id := "b", name := "b" }]] ≠
      aggregateModels [.ok [{ id := "b", name := "b" }], .ok [{ id := "a", name := "a" }]] := by
  refine ⟨rfl, rfl, ?_⟩
  decide

/-! ## Claim C9: provision/validate failure conditions. -/

theorem checkOrder_cases (parseOk : String → Bool)
    (providers : List (String × ProviderCfg)) :
    ∀ (order : List String),
      (∀ n ∈ order, (providers.lookup n).isSome) →
      checkOrder parseOk providers order = none ∨
        checkOrder parseOk providers order = some .fatal := by
  intro order
  induction order with
  | nil => intro _; exact Or.inl rfl
  | cons name rest ih =>
    intro h
    have hname := h name (List.mem_cons_self name rest)
    obtain ⟨cfg, hcfg⟩ := Option.isSome_iff_exists.mp hname
    have hrest := fun n hn => h n (List.mem_cons_of_mem name hn)
    by_cases hurl : cfg.apiBaseURL = ""
    · right; simp [checkOrder, hcfg, hurl]
    · by_cases hparse : parseOk cfg.apiBaseURL
      · have : checkOrder parseOk providers (name :: rest) =
            checkOrder parseOk providers rest := by
          simp [checkOrder, hcfg, hurl, hparse]
        rw [this]
        exact ih hrest
      · right; simp [checkOrder, hcfg, hurl, hparse]

theorem checkOrder_none_iff (parseOk : String → Bool)
    (providers : List (String × ProviderCfg)) :
    ∀ (order : List String),
      (∀ n ∈ order, (providers.lookup n).isSome) →
      (checkOrder parseOk providers order = none ↔
        ∀ n ∈ order, ∀ cfg, providers.lookup n = some cfg →
          cfg.apiBaseURL ≠ "" ∧ parseOk cfg.apiBaseURL = true) := by
  intro order
  induction order with
  | nil => intro _; simp [checkOrder]
  | cons name rest ih =>
    intro h
    have hname := h name (List.mem_cons_self name rest)
    obtain ⟨cfg, hcfg⟩ := Option.isSome_iff_exists.mp hname
    have hrest := fun n hn => h n (List.mem_cons_of_mem name hn)
    by_cases hurl : cfg.apiBaseURL = ""
    · simp only [checkOrder, hcfg, hurl, if_pos]
      constructor
      · intro hcontra; exact absurd hcontra (by simp)
      · intro hall
        have := (hall name (List.mem_cons_self name rest) cfg hcfg).1
        exact absurd hurl this
    · by_cases hparse : parseOk cfg.apiBaseURL
      · have hred : checkOrder parseOk providers (name :: rest) =
            checkOrder parseOk providers rest := by
          simp [checkOrder, hcfg, hurl, hparse]
        rw [hred, ih hrest]
        constructor
        · intro hall n hn cfg2 hcfg2
          rcases List.mem_cons.mp hn with hn1 | hn2
          · subst hn1
            rw [hcfg] at hcfg2
            cases hcfg2
            exact ⟨hurl, hparse⟩
          · exact hall n hn2 cfg2 hcfg2
        · intro hall n hn cfg2 hcfg2
          exact hall n (List.mem_cons_of_mem name hn) cfg2 hcfg2
      · have hparse2 : parseOk cfg.apiBaseURL = false := by
          cases hc : parseOk cfg.apiBaseURL with
          | false => rfl
          | true => exact absurd hc hparse
        simp only [checkOrder, hcfg, hurl, hparse2]
        constructor
        · intro hcontra
          simp [if_neg hurl] at hcontra
        · intro hall
          have := (hall name (List.mem_cons_self name rest) cfg hcfg).2
          rw [hparse2] at this
          exact absurd this (by simp)

theorem checkDefaults_cases (providers : List (String × ProviderCfg)) :
    ∀ (ds : List (String × List String)),
      checkDefaults providers ds = none ∨ checkDefaults providers ds = some .fatal := by
  intro ds
  induction ds with
  | nil => exact Or.inl rfl
  | cons e rest ih =>
    obtain ⟨model, pNames⟩ := e
    by_cases h : pNames.any (fun pn => (providers.lookup pn).isNone)
    · right; simp [checkDefaults, h]
    · have : checkDefaults providers ((model, pNames) :: rest) =
          checkDefaults providers rest := by
        simp [checkDefaults, h]
      rw [this]
      exact ih

theorem checkDefaults_none_iff (providers : List (String × ProviderCfg)) :
    ∀ (ds : List (String × List String)),
      (checkDefaults providers ds = none ↔
        ∀ e ∈ ds, ∀ pn ∈ e.2, (providers.lookup pn).isSome) := by
  intro ds
  induction ds with
  | nil => simp [checkDefaults]
  | cons e rest ih =>
    obtain ⟨model, pNames⟩ := e
    by_cases h : pNames.any (fun pn => (providers.lookup pn).isNone)
    · simp only [checkDefaults, h, if_pos]
      constructor
      · intro hcontra; exact absurd hcontra (by simp)
      · intro hall
        obtain ⟨pn, hpn, hnone⟩ := List.any_eq_true.mp h
        have := hall (model, pNames) (List.mem_cons_self _ _) pn hpn
        rw [Option.isNone_iff_eq_none.mp hnone] at this
        exact absurd this (by simp)
    · have hred : checkDefaults providers ((model, pNames) :: rest) =
          checkDefaults providers rest := by
        simp [checkDefaults, h]
      rw [hred, ih]
      constructor
      · intro hall e he pn hpn
        rcases List.mem_cons.mp he with he1 | he2
        · subst he1
          cases hlo : providers.lookup pn with
          | some v => simp
          | none =>
            exact absurd (List.any_eq_true.mpr ⟨pn, hpn, by rw [hlo]; rfl⟩) h
        · exact hall e he2 pn hpn
      · intro hall e he pn hpn
        exact hall e (List.mem_cons_of_mem _ he) pn hpn

/-- Claim C9 (amended): assuming every `provider_order` entry names a
configured provider, the provision-then-validate lifecycle returns a fatal
error exactly when no providers are defined, or some provider listed in
`provider_order` has a missing or unparseable base URL, or some per-model
default references an unconfigured provider — and it never crashes.
Providers absent from `provider_order` are not URL-checked. -/
theorem claim9_provision_failure_conditions (parseOk : String → Bool)
    (st : RouterState)
    (horder : ∀ n ∈ st.providerOrder, (st.providers.lookup n).isSome) :
    (provisionAndValidate parseOk st ≠ .ok ↔
      (st.providers = [] ∨
       (∃ n ∈ st.providerOrder, ∃ cfg, st.providers.lookup n = some cfg ∧
          (cfg.apiBaseURL = "" ∨ parseOk cfg.apiBaseURL = false)) ∨
       (∃ e ∈ st.defaultProviderForModel, ∃ pn ∈ e.2,
          st.providers.lookup pn = none))) ∧
    provisionAndValidate parseOk st ≠ .panicked := by
  rcases checkOrder_cases parseOk st.providers st.providerOrder horder with hord | hord
  · rcases checkDefaults_cases st.providers st.defaultProviderForModel with hdef | hdef
    · by_cases hemp : st.providers.isEmpty
      · have hres : provisionAndValidate parseOk st = .fatal := by
          unfold provisionAndValidate
          rw [hord, hdef]
          simp [hemp]
        rw [hres]
        refine ⟨?_, by simp⟩
        constructor
        · intro _
          exact Or.inl (List.isEmpty_iff.mp hemp)
        · intro _
          simp
      · have hres : provisionAndValidate parseOk st = .ok := by
          unfold provisionAndValidate
          rw [hord, hdef]
          simp [hemp]
        rw [hres]
        refine ⟨?_, by simp⟩
        constructor
        · intro hcontra; exact absurd rfl hcontra
        · intro hbad
          rcases hbad with hb1 | hb2 | hb3
          · rw [hb1] at hemp
            exact (hemp rfl).elim
          · obtain ⟨n, hn, cfg, hcfg, hbadurl⟩ := hb2
            have hgood := (checkOrder_none_iff parseOk st.providers
              st.providerOrder horder).mp hord n hn cfg hcfg
            rcases hbadurl with hu | hu
            · exact (hgood.1 hu).elim
            · rw [hgood.2] at hu
              exact absurd hu (by simp)
          · obtain ⟨e, he, pn, hpn, hnone⟩ := hb3
            have hgood := (checkDefaults_none_iff st.providers
              st.defaultProviderForModel).mp hdef e he pn hpn
            rw [hnone] at hgood
            exact absurd hgood (by simp)
    · have hres : provisionAndValidate parseOk st = .fatal := by
        unfold provisionAndValidate
        rw [hord, hdef]
      rw [hres]
      refine ⟨?_, by simp⟩
      constructor
      · intro _
        refine Or.inr (Or.inr ?_)
        have hnot : ¬ (∀ e ∈ st.defaultProviderForModel, ∀ pn ∈ e.2,
            (st.providers.lookup pn).isSome) := by
          intro hall
          have := (checkDefaults_none_iff st.providers
            st.defaultProviderForModel).mpr hall
          rw [this] at hdef
          exact absurd hdef (by simp)
        push_neg at hnot
        obtain ⟨e, he, pn, hpn, hns⟩ := hnot
        refine ⟨e, he, pn, hpn, ?_⟩
        cases hlo : st.providers.lookup pn with
        | none => rfl
        | some v => rw [hlo] at hns; simp at hns
      · intro _
        simp
  · have hres : provisionAndValidate parseOk st = .fatal := by
      unfold provisionAndValidate
      rw [hord]
    rw [hres]
    refine ⟨?_, by simp⟩
    constructor
    · intro _
      refine Or.inr (Or.inl ?_)
      have hnot : ¬ (∀ n ∈ st.providerOrder, ∀ cfg,
          st.providers.lookup n = some cfg →
          cfg.apiBaseURL ≠ "" ∧ parseOk cfg.apiBaseURL = true) := by
        intro hall
        have := (checkOrder_none_iff parseOk st.providers
          st.providerOrder horder).mpr hall
        rw [this] at hord
        exact absurd hord (by simp)
      push_neg at hnot
      obtain ⟨n, hn, cfg, hcfg, hbad⟩ := hnot
      refine ⟨n, hn, cfg, hcfg, ?_⟩
      by_cases hu : cfg.apiBaseURL = ""
      · exact Or.inl hu
      · right
        cases hp : parseOk cfg.apiBaseURL with
        | false => rfl
        | true => exact absurd (hbad hu) (by simp [hp])
    · intro _
      simp

/-- Configuration refuting claim C9 as stated: provider `b` has a missing
base URL but is absent from `provider_order`, so provisioning never checks
it. -/
def stClaim9Cex : RouterState :=
  { providers := [("a", { apiBaseURL := "https://a.example", style := "" }),
                  ("b", { apiBaseURL := "", style := "" })],
    defaultProviderForModel := [],
    providerOrder := ["a"] }

/-- Counterexample to claim C9 as stated: a configured provider with a
missing base URL, yet the provision-then-validate lifecycle succeeds because
the provider is not listed in `provider_order`. -/
theorem claim9_provision_counterexample :
    (∃ p ∈ stClaim9Cex.providers, p.2.apiBaseURL = "") ∧
    provisionAndValidate (fun _ => true) stClaim9Cex = .ok := by
  constructor
  · exact ⟨("b", { apiBaseURL := "", style := "" }), by decide, rfl⟩
  · rfl

/-- Witness for claim C9 at a concrete configuration: the same registry with
its order covered by configured providers. -/
theorem claim9_provision_failure_conditions_witness :
    (provisionAndValidate (fun _ => true) stClaim9Cex ≠ .ok ↔
      (stClaim9Cex.providers = [] ∨
       (∃ n ∈ stClaim9Cex.providerOrder, ∃ cfg,
          stClaim9Cex.providers.lookup n = some cfg ∧
          (cfg.apiBaseURL = "" ∨ (fun _ => true) cfg.apiBaseURL = false)) ∨
       (∃ e ∈ stClaim9Cex.defaultProviderForModel, ∃ pn ∈ e.2,
          stClaim9Cex.providers.lookup pn = none))) ∧
    provisionAndValidate (fun _ => true) stClaim9Cex ≠ .panicked :=
  claim9_provision_failure_conditions (fun _ => true) stClaim9Cex (by decide)

end AIRouter
